import Mathlib

/-!
Verification of the statistics-counter registry in
`src/ptlsim/stats/statsBuilder.h` (MARSS / marss.dramsim).

Shallow embedding conventions:

* Machine memory is modelled byte-addressed as `Mem := Nat → Int`: a counter
  value of type `T` stored at byte address `a` is modelled as the single cell
  `m a` (all addresses arising in the claims are multiples of `sizeof T` from
  a common base, so two accesses overlap exactly when their byte addresses
  coincide, and the single-cell model is address-faithful).
* An arena (`Stats`) is identified by the base address of its `mem` block
  (`Stats::base()`); distinct live arenas occupy disjoint address ranges.
* The additive/multiplicative structure of the numeric template parameter `T`
  is modelled by `Int`; `sizeof(T)` is an explicit `Nat` parameter `tsize`.
* `assert(cond)` is modelled by returning `Option` (`none` = abort) or by an
  explicit proposition stating the assert's condition.
-/

/-- `#define STATS_SIZE 1024*10` (statsBuilder.h line 10). -/
def STATS_SIZE : Nat := 1024 * 10

/-- Byte-addressed memory. -/
def Mem : Type := Nat → Int

/-- The all-zero memory: arenas are zero-initialized when allocated. -/
def zeroMem : Mem := fun _ => 0

/-- Write one counter cell. -/
def memWrite (m : Mem) (a : Nat) (v : Int) : Mem :=
  fun x => if x = a then v else m x

/-- `StatsBuilder::get_offset(int size)`: returns the current cursor and
advances it by `size`. -/
def get_offset (cursor size : Nat) : Nat × Nat :=
  (cursor, cursor + size)

/-- The condition of `assert(stat_offset < STATS_SIZE)` evaluated after the
cursor has been advanced (`stat_offset += size` precedes the assert). -/
def getOffsetAssertOk (cursor size : Nat) : Prop :=
  (get_offset cursor size).2 < STATS_SIZE

instance (c s : Nat) : Decidable (getOffsetAssertOk c s) := by
  unfold getOffsetAssertOk get_offset
  infer_instance

/-- Cursor value after performing a sequence of `get_offset` reservations. -/
def cursorAfter (c : Nat) (sizes : List Nat) : Nat :=
  sizes.foldl (fun cur s => (get_offset cur s).2) c

/-- The offset handed to the `k`-th descriptor in a reservation sequence:
`get_offset` returns the cursor as it stood before the reservation. -/
def offsetOf (c : Nat) (sizes : List Nat) (k : Nat) : Nat :=
  cursorAfter c (sizes.take k)

/-- Descriptor state of `StatObj<T>`: the construction-time byte `offset`,
the current default target arena `default_stats` (`none` = NULL) and the
cached pointer `default_var` (`none` = NULL), as absolute byte addresses. -/
structure StatObjState where
  offset : Nat
  default_stats : Option Nat
  default_var : Option Nat
deriving DecidableEq, Repr

/-- `StatObj<T>::set_default_var_ptr()`:
`default_var = default_stats ? (T*)(default_stats->base() + offset) : NULL`. -/
def set_default_var_ptr (d : StatObjState) : StatObjState :=
  match d.default_stats with
  | some b => ⟨d.offset, d.default_stats, some (b + d.offset)⟩
  | none => ⟨d.offset, d.default_stats, none⟩

/-- `StatObj<T>::StatObj`: the offset comes from the builder, the initial
target is the parent's default stats, then `set_default_var_ptr()` runs. -/
def mkStatObj (parentDefault : Option Nat) (off : Nat) : StatObjState :=
  set_default_var_ptr ⟨off, parentDefault, none⟩

/-- `StatObj<T>::set_default_stats(Stats*)`: store the new target
(`StatObjBase::set_default_stats`), then `set_default_var_ptr()`. -/
def set_default_stats (d : StatObjState) (b : Option Nat) : StatObjState :=
  set_default_var_ptr ⟨d.offset, b, d.default_var⟩

/-- `StatObj<T>::operator()(Stats*)`: the address `stats->base() + offset`
through which the explicit-arena access reads or writes. -/
def statObjResolve (d : StatObjState) (base : Nat) : Nat :=
  base + d.offset

/-- `StatObj<T>::operator++(int)`: `assert(default_var); ret = (*default_var)++`.
Returns the old value and the updated memory, or `none` when the assert on
`default_var` fails. -/
def statObjIncPost (d : StatObjState) (m : Mem) : Option (Int × Mem) :=
  match d.default_var with
  | none => none
  | some a => some (m a, memWrite m a (m a + 1))

/-- `StatObj<T>::operator++()`: pre-increment, returns the new value. -/
def statObjIncPre (d : StatObjState) (m : Mem) : Option (Int × Mem) :=
  match d.default_var with
  | none => none
  | some a => some (m a + 1, memWrite m a (m a + 1))

/-- `StatObj<T>::operator--(int)`: post-decrement. -/
def statObjDecPost (d : StatObjState) (m : Mem) : Option (Int × Mem) :=
  match d.default_var with
  | none => none
  | some a => some (m a, memWrite m a (m a - 1))

/-- `StatObj<T>::operator--()`: pre-decrement, returns the new value. -/
def statObjDecPre (d : StatObjState) (m : Mem) : Option (Int × Mem) :=
  match d.default_var with
  | none => none
  | some a => some (m a - 1, memWrite m a (m a - 1))

/-- The condition of `assert(index < size)` in `StatArray<T,size>::operator[]`.
The index is a C `int`, so both operands are signed: a negative index is
compared as-is. This is the only bounds check the operator performs. -/
def statArrayBoundsOk (size index : Int) : Prop :=
  index < size

instance (s i : Int) : Decidable (statArrayBoundsOk s i) := by
  unfold statArrayBoundsOk
  infer_instance

/-- Byte address accessed by `StatArray<T,size>::operator[]` for a
non-negative index: the source computes `default_var + (index * sizeof(T))`
where `default_var` has type `T*`, so pointer arithmetic scales the
displacement by `sizeof(T)` again: the byte displacement from `default_var`
is `(index * tsize) * tsize`. -/
def statArrayElemAddr (dv tsize index : Nat) : Nat :=
  dv + index * tsize * tsize

/-- Write value `i` through `StatArray::operator[]` at index `i`, for every
`i ∈ [0, n)`, in increasing index order (each write lands at
`statArrayElemAddr`). -/
def statArrayWriteSeq (dv tsize : Nat) : Nat → Mem → Mem
  | 0, m => m
  | n + 1, m =>
      memWrite (statArrayWriteSeq dv tsize n m) (statArrayElemAddr dv tsize n) (n : Int)

/-- `StatArray<T,size>::operator()(Stats*)` resolves the whole array at
`stats->base() + offset`; element `i` of the resulting `T[size]` lives at
byte address `base + offset + i * tsize`. This list is the array as read
back through `operator()`, in index order. -/
def statArrayRead (m : Mem) (base off tsize count : Nat) : List Int :=
  (List.range count).map (fun i => m (base + off + i * tsize))

/-- `StatArray<T,size>::dump(YAML::Emitter&, Stats*)`: emits the name as a
key and, as a flow sequence, the elements read through `operator()(stats)`
in index order. The emitter is treated opaquely as (key, value list). -/
def statArrayDumpYAML (name : String) (off tsize count : Nat) (m : Mem)
    (base : Nat) : String × List Int :=
  (name, statArrayRead m base off tsize count)

/-- `StatObj<T>::dump(YAML::Emitter&, Stats*)`: `assert(default_var)`, then
emits the name as key and `(*this)(stats)` as value. `none` models the
abort when `default_var` is NULL. -/
def statObjDumpYAML (d : StatObjState) (name : String) (m : Mem)
    (base : Nat) : Option (String × Int) :=
  match d.default_var with
  | none => none
  | some _ => some (name, m (statObjResolve d base))

/-- `StatObj<T>::dump(ostream&, Stats*)`:
`os << name << ":" << var << "\n"` with `var = (*this)(stats)`. -/
def statObjDumpText (d : StatObjState) (name : String) (m : Mem)
    (base : Nat) (os : String) : String :=
  os ++ name ++ ":" ++ toString (m (statObjResolve d base)) ++ "\n"

/-- The `foreach(i, size) { os << arr[i] << " "; }` loop of
`StatArray<T,size>::dump(ostream&, Stats*)`, in increasing index order. -/
def statArrayDumpLoop (vals : List Int) (os : String) : String :=
  match vals with
  | [] => os
  | v :: rest => statArrayDumpLoop rest (os ++ toString v ++ " ")

/-- `StatArray<T,size>::dump(ostream&, Stats*)`: `os << name << ": "`, the
element loop over `operator()(stats)`, then `os << "\n"`. -/
def statArrayDumpText (name : String) (off tsize count : Nat) (m : Mem)
    (base : Nat) (os : String) : String :=
  statArrayDumpLoop (statArrayRead m base off tsize count) (os ++ name ++ ": ") ++ "\n"

/-- `StatObj<T>::operator+(const T& b)`: `assert(default_var);
T ret = (*default_var) + b; return ret;`. The triple is the returned value
together with the memory and descriptor state as the method leaves them. -/
def statObjAddLit (d : StatObjState) (m : Mem) (b : Int) :
    Option (Int × Mem × StatObjState) :=
  match d.default_var with
  | none => none
  | some a => some (m a + b, m, d)

/-- `StatObj<T>::operator-(const T& b)`. -/
def statObjSubLit (d : StatObjState) (m : Mem) (b : Int) :
    Option (Int × Mem × StatObjState) :=
  match d.default_var with
  | none => none
  | some a => some (m a - b, m, d)

/-- `StatObj<T>::operator*(const T& b)`. -/
def statObjMulLit (d : StatObjState) (m : Mem) (b : Int) :
    Option (Int × Mem × StatObjState) :=
  match d.default_var with
  | none => none
  | some a => some (m a * b, m, d)

/-- `StatObj<T>::operator/(const T& b)`. -/
def statObjDivLit (d : StatObjState) (m : Mem) (b : Int) :
    Option (Int × Mem × StatObjState) :=
  match d.default_var with
  | none => none
  | some a => some (m a / b, m, d)

/-- `StatObj<T>::operator+(const StatObj<T>&)`: asserts both descriptors'
`default_var`, reads both, returns the sum; both operands' memory and
descriptor states are returned as the method leaves them. -/
def statObjAddObj (d e : StatObjState) (m : Mem) :
    Option (Int × Mem × StatObjState × StatObjState) :=
  match d.default_var, e.default_var with
  | some a, some c => some (m a + m c, m, d, e)
  | _, _ => none

/-- `StatObj<T>::operator-(const StatObj<T>&)`. -/
def statObjSubObj (d e : StatObjState) (m : Mem) :
    Option (Int × Mem × StatObjState × StatObjState) :=
  match d.default_var, e.default_var with
  | some a, some c => some (m a - m c, m, d, e)
  | _, _ => none

/-- `StatObj<T>::operator*(const StatObj<T>&)`. -/
def statObjMulObj (d e : StatObjState) (m : Mem) :
    Option (Int × Mem × StatObjState × StatObjState) :=
  match d.default_var, e.default_var with
  | some a, some c => some (m a * m c, m, d, e)
  | _, _ => none

/-- `StatObj<T>::operator/(const StatObj<T>&)`. -/
def statObjDivObj (d e : StatObjState) (m : Mem) :
    Option (Int × Mem × StatObjState × StatObjState) :=
  match d.default_var, e.default_var with
  | some a, some c => some (m a / m c, m, d, e)
  | _, _ => none

/-- A leaf counter descriptor as laid out by the builder: the scalar variant
(`StatObj<T>`) occupies `tsize` bytes at `offset`; the array variant
(`StatArray<T,count>`) occupies `tsize * count` bytes. -/
inductive Leaf where
  | scalar (offset tsize : Nat)
  | array (offset tsize count : Nat)
deriving DecidableEq, Repr

/-- Byte offset of a leaf within every arena. -/
def Leaf.offset : Leaf → Nat
  | .scalar o _ => o
  | .array o _ _ => o

/-- `sizeof(T)` of a leaf's element type. -/
def Leaf.tsize : Leaf → Nat
  | .scalar _ t => t
  | .array _ t _ => t

/-- Number of bytes the leaf reserved from the builder
(`sizeof(T)` for `StatObj`, `sizeof(T) * size` for `StatArray`). -/
def Leaf.bytes : Leaf → Nat
  | .scalar _ t => t
  | .array _ t c => t * c

/-- `StatObj<T>::add_stats(Stats& dest, Stats& src)`:
`T& dest_var = (*this)(&dest); dest_var += (*this)(&src);` — one read-modify-
write of the cell at `dest.base() + offset`, reading `src.base() + offset`. -/
def statObjAddStats (off : Nat) (bdst bsrc : Nat) (m : Mem) : Mem :=
  memWrite m (bdst + off) (m (bdst + off) + m (bsrc + off))

/-- The `foreach(i, size) { dest_arr[i] += src_arr[i]; }` loop of
`StatArray<T,size>::add_stats`, with both arrays resolved through
`operator()` (element `i` at `base + offset + i * tsize`), iterating in
increasing index order. -/
def statArrayAddStatsLoop (off tsize : Nat) (bdst bsrc : Nat) : Nat → Mem → Mem
  | 0, m => m
  | i + 1, m =>
      memWrite (statArrayAddStatsLoop off tsize bdst bsrc i m)
        (bdst + off + i * tsize)
        (statArrayAddStatsLoop off tsize bdst bsrc i m (bdst + off + i * tsize) +
         statArrayAddStatsLoop off tsize bdst bsrc i m (bsrc + off + i * tsize))

/-- Dispatch of the virtual `StatObjBase::add_stats` to the leaf variants. -/
def Leaf.addStats : Leaf → Nat → Nat → Mem → Mem
  | .scalar o _, bdst, bsrc, m => statObjAddStats o bdst bsrc m
  | .array o t c, bdst, bsrc, m => statArrayAddStatsLoop o t bdst bsrc c m

/-- Modelled from the spec: `Statable::add_stats(Stats&, Stats&)` is declared
in the header but its body lives outside `src/`; per the spec (§4.3, §4.4),
`StatsBuilder::add_stats` delegates to the root node, whose merge is a
depth-first traversal "invoking each leaf's merge_into" in registration
order. A whole-tree merge therefore applies `Leaf.addStats` to every
registered leaf, in order. -/
def mergeAll (leaves : List Leaf) (bdst bsrc : Nat) (m : Mem) : Mem :=
  leaves.foldl (fun mm l => l.addStats bdst bsrc mm) m

/-- A leaf as the builder lays it out: positive element size, and its byte
range fits under the capacity ceiling the builder enforces. -/
def Leaf.wf (l : Leaf) : Prop :=
  0 < l.tsize ∧ l.offset + l.bytes ≤ STATS_SIZE

/-- The byte ranges of two leaves do not overlap. -/
def Leaf.disjoint (l1 l2 : Leaf) : Prop :=
  l1.offset + l1.bytes ≤ l2.offset ∨ l2.offset + l2.bytes ≤ l1.offset

/-- Address `a` lies in the block of the arena based at `base`. -/
def inBlock (base a : Nat) : Prop :=
  base ≤ a ∧ a < base + STATS_SIZE

/-- The cells `Leaf.addStats` writes in the destination arena based `bdst`. -/
def Leaf.writesAt : Leaf → Nat → Nat → Prop
  | .scalar o _, bdst, a => a = bdst + o
  | .array o t c, bdst, a => ∃ i, i < c ∧ a = bdst + o + i * t

/-- What the spec's merge promises for one leaf: in the destination the
leaf's cell(s) become old destination plus source, and in the source arena
the leaf's cell(s) are unchanged. `m` is the pre-merge memory, `m2` the
post-merge memory. -/
def leafMergeSpec (m m2 : Mem) (bdst bsrc : Nat) : Leaf → Prop
  | .scalar o _ =>
      m2 (bdst + o) = m (bdst + o) + m (bsrc + o) ∧ m2 (bsrc + o) = m (bsrc + o)
  | .array o t c => ∀ i, i < c →
      m2 (bdst + o + i * t) = m (bdst + o + i * t) + m (bsrc + o + i * t) ∧
      m2 (bsrc + o + i * t) = m (bsrc + o + i * t)

instance (l : Leaf) : Decidable l.wf := by
  rw [Leaf.wf]
  infer_instance

instance (l1 l2 : Leaf) : Decidable (l1.disjoint l2) := by
  rw [Leaf.disjoint]
  infer_instance

/-- A constructed `StatObj` after an arbitrary sequence of
`set_default_stats` calls: the only operations that mutate descriptor
state. -/
def applyTargets (parentDefault : Option Nat) (off : Nat)
    (targets : List (Option Nat)) : StatObjState :=
  targets.foldl set_default_stats (mkStatObj parentDefault off)

/-- The amended text format for array leaves: every element is followed by
one space, so the line carries a trailing space before the newline. -/
def arrayTextFormat (vals : List Int) : String :=
  match vals with
  | [] => ""
  | v :: rest => toString v ++ " " ++ arrayTextFormat rest

theorem statArrayDumpLoop_eq (vals : List Int) (os : String) :
    statArrayDumpLoop vals os = os ++ arrayTextFormat vals := by
  induction vals generalizing os with
  | nil => simp [statArrayDumpLoop, arrayTextFormat]
  | cons v rest ih =>
      simp [statArrayDumpLoop, arrayTextFormat, ih, String.append_assoc]

/-- C1: writing value `i` at index `i` through `StatArray::operator[]` for a
`StatArray<W64,2>` (element size 8) bound to a zero-initialized arena, then
reading back through the YAML dump, yields `[0, 0]` instead of the claimed
`[0, 1]`: `operator[]` double-scales the index (`T*` pointer arithmetic on
`index * sizeof(T)`), so the write for index 1 lands 64 bytes past the base
while the dump reads the element 8 bytes past the base. Both writes pass the
`index < size` assert. -/
theorem c1_array_roundtrip_bug :
    (statArrayDumpYAML "arr" 0 8 2 (statArrayWriteSeq 0 8 2 zeroMem) 0).2 = [0, 0] ∧
    (statArrayDumpYAML "arr" 0 8 2 (statArrayWriteSeq 0 8 2 zeroMem) 0).2 ≠ [0, 1] ∧
    statArrayBoundsOk 2 0 ∧ statArrayBoundsOk 2 1 ∧
    statArrayElemAddr 0 8 1 = 64 := by
  refine ⟨by decide, by decide, by decide, by decide, by decide⟩

/-- C2 counterexample: a reservation that leaves the cursor exactly at
`STATS_SIZE` fails the builder's `assert(stat_offset < STATS_SIZE)`,
refuting the claim that reserving exactly up to the ceiling succeeds. -/
theorem c2_exact_ceiling_aborts :
    (get_offset 0 STATS_SIZE).2 = STATS_SIZE ∧ ¬ getOffsetAssertOk 0 STATS_SIZE :=
  ⟨rfl, by decide⟩

/-- C2 amended: a reservation succeeds (the post-advance assert holds) iff
the advanced cursor stays strictly below `STATS_SIZE`; any reservation that
makes the cursor reach or pass the ceiling aborts; the offset returned is
the pre-advance cursor and the cursor advances by exactly `size`. -/
theorem c2_capacity_enforcement (cursor size : Nat) :
    (getOffsetAssertOk cursor size ↔ cursor + size < STATS_SIZE) ∧
    (STATS_SIZE ≤ cursor + size → ¬ getOffsetAssertOk cursor size) ∧
    (get_offset cursor size).1 = cursor ∧
    (get_offset cursor size).2 = cursor + size := by
  refine ⟨Iff.rfl, ?_, rfl, rfl⟩
  intro h hok
  exact absurd hok (by simpa [getOffsetAssertOk, get_offset] using Nat.not_lt.mpr h)

theorem c2_capacity_enforcement_witness :
    getOffsetAssertOk 0 10239 ∧ ¬ getOffsetAssertOk 10000 240 :=
  ⟨(c2_capacity_enforcement 0 10239).1.mpr (by decide),
   (c2_capacity_enforcement 10000 240).2.1 (by decide)⟩

/-- C3 counterexample: with no target arena set, `StatObj::dump(YAML)` hits
`assert(default_var)` and aborts even though the value would come from the
supplied arena, refuting "does not abort ... including when no target is
set". -/
theorem c3_yaml_dump_aborts_without_target :
    statObjDumpYAML (mkStatObj none 0) "n" zeroMem 0 = none :=
  rfl

/-- C3 amended: both dump overloads read the value only from the supplied
arena — two descriptors with equal offsets produce identical dumps whatever
their (set) targets are, and the emitted value is the supplied arena's cell
at `base + offset` — but the YAML dump asserts that the default target is
set and aborts when it is NULL, while the ostream dump never consults the
target at all. -/
theorem c3_dump_reads_supplied_arena (d1 d2 : StatObjState)
    (hoff : d1.offset = d2.offset) (name : String) (m : Mem) (base : Nat)
    (os : String) (a1 a2 : Nat)
    (h1 : d1.default_var = some a1) (h2 : d2.default_var = some a2) :
    statObjDumpYAML d1 name m base = some (name, m (base + d1.offset)) ∧
    statObjDumpYAML d1 name m base = statObjDumpYAML d2 name m base ∧
    statObjDumpText d1 name m base os = statObjDumpText d2 name m base os := by
  refine ⟨?_, ?_, ?_⟩
  · simp [statObjDumpYAML, h1, statObjResolve]
  · simp [statObjDumpYAML, h1, h2, statObjResolve, hoff]
  · simp [statObjDumpText, statObjResolve, hoff]

theorem c3_dump_reads_supplied_arena_witness :
    statObjDumpYAML (mkStatObj (some 0) 4) "n" zeroMem 100 =
      some ("n", zeroMem (100 + (mkStatObj (some 0) 4).offset)) ∧
    statObjDumpYAML (mkStatObj (some 0) 4) "n" zeroMem 100 =
      statObjDumpYAML (mkStatObj (some 7000) 4) "n" zeroMem 100 ∧
    statObjDumpText (mkStatObj (some 0) 4) "n" zeroMem 100 "" =
      statObjDumpText (mkStatObj (some 7000) 4) "n" zeroMem 100 "" :=
  c3_dump_reads_supplied_arena (mkStatObj (some 0) 4) (mkStatObj (some 7000) 4)
    rfl "n" zeroMem 100 "" 4 7004 rfl rfl

/-- C4 counterexample: the ostream dump of a scalar named `x` holding 5 is
`"x:5\n"` — no space after the colon — not the claimed `"x: 5\n"`. -/
theorem c4_scalar_dump_lacks_space :
    statObjDumpText (mkStatObj (some 0) 0) "x" (fun _ => (5 : Int)) 0 "" = "x:5\n" ∧
    statObjDumpText (mkStatObj (some 0) 0) "x" (fun _ => (5 : Int)) 0 "" ≠ "x: 5\n" :=
  ⟨rfl, by decide⟩

/-- C4 amended: the plain-text dump of a scalar leaf is exactly
`"<name>:<value>\n"` (no space after the colon), and of an array leaf is
exactly `"<name>: "` followed by each element in index order, each followed
by a single space — hence a trailing space before the newline. -/
theorem c4_text_dump_format (d : StatObjState) (name : String) (m : Mem)
    (base : Nat) (os : String) (off tsize count : Nat) :
    statObjDumpText d name m base os =
      os ++ name ++ ":" ++ toString (m (base + d.offset)) ++ "\n" ∧
    statArrayDumpText name off tsize count m base os =
      os ++ name ++ ": " ++ arrayTextFormat (statArrayRead m base off tsize count) ++ "\n" := by
  constructor
  · rfl
  · simp [statArrayDumpText, statArrayDumpLoop_eq, String.append_assoc]

/-- C9 counterexample: index `-1` on a `StatArray` of size 4 is outside
`[0, 4)` yet passes the operator's only bounds check `assert(index < size)`,
so no fatal assertion fires. -/
theorem c9_negative_index_passes_bounds_assert :
    statArrayBoundsOk 4 (-1) ∧ ¬ ((0 : Int) ≤ -1) := by
  decide

/-- C9 amended: the bounds assert of `StatArray::operator[]` fires exactly
for `index ≥ size`: in-bounds indices never trigger it, indices at or past
`size` always do, and negative (hence out-of-range) indices pass it
unchecked. -/
theorem c9_bounds_assert_characterization (size index : Int) :
    (statArrayBoundsOk size index ↔ index < size) ∧
    (0 ≤ index → index < size → statArrayBoundsOk size index) ∧
    (size ≤ index → ¬ statArrayBoundsOk size index) ∧
    (index < 0 → index < size → statArrayBoundsOk size index) := by
  refine ⟨Iff.rfl, fun _ h => h, fun h hok => absurd hok (not_lt.mpr h), fun _ h => h⟩

theorem c9_bounds_assert_characterization_witness :
    statArrayBoundsOk 4 2 ∧ ¬ statArrayBoundsOk 4 4 :=
  ⟨(c9_bounds_assert_characterization 4 2).2.1 (by decide) (by decide),
   (c9_bounds_assert_characterization 4 4).2.2.1 (by decide)⟩

/-- C10: all eight binary operators of `StatObj<T>` (`+ - * /` with a `T`
literal or with another `StatObj<T>`) are pure reads once their
`assert(default_var)` preconditions hold: each returns the value computed
from the operand cell(s) and leaves the memory and both descriptor states
exactly as they were. -/
theorem c10_binary_ops_pure (d e : StatObjState) (m : Mem) (bv : Int)
    (a c : Nat) (hd : d.default_var = some a) (he : e.default_var = some c) :
    statObjAddLit d m bv = some (m a + bv, m, d) ∧
    statObjSubLit d m bv = some (m a - bv, m, d) ∧
    statObjMulLit d m bv = some (m a * bv, m, d) ∧
    statObjDivLit d m bv = some (m a / bv, m, d) ∧
    statObjAddObj d e m = some (m a + m c, m, d, e) ∧
    statObjSubObj d e m = some (m a - m c, m, d, e) ∧
    statObjMulObj d e m = some (m a * m c, m, d, e) ∧
    statObjDivObj d e m = some (m a / m c, m, d, e) := by
  refine ⟨?_, ?_, ?_, ?_, ?_, ?_, ?_, ?_⟩ <;>
    simp [statObjAddLit, statObjSubLit, statObjMulLit, statObjDivLit,
      statObjAddObj, statObjSubObj, statObjMulObj, statObjDivObj, hd, he]

theorem c10_binary_ops_pure_witness :
    statObjAddObj (mkStatObj (some 0) 0) (mkStatObj (some 0) 8) zeroMem =
      some (zeroMem 0 + zeroMem 8, zeroMem, mkStatObj (some 0) 0, mkStatObj (some 0) 8) :=
  (c10_binary_ops_pure (mkStatObj (some 0) 0) (mkStatObj (some 0) 8) zeroMem 0
    0 8 rfl rfl).2.2.2.2.1

theorem set_default_stats_offset_var (d : StatObjState) (b : Option Nat) :
    (set_default_stats d b).offset = d.offset ∧
    (set_default_stats d b).default_stats = b ∧
    (set_default_stats d b).default_var = b.map (fun x => x + d.offset) := by
  cases b <;> simp [set_default_stats, set_default_var_ptr]

theorem foldl_set_default_stats_inv (targets : List (Option Nat))
    (d : StatObjState)
    (h : d.default_var = d.default_stats.map (fun b => b + d.offset)) :
    (targets.foldl set_default_stats d).offset = d.offset ∧
    (targets.foldl set_default_stats d).default_var =
      (targets.foldl set_default_stats d).default_stats.map
        (fun b => b + d.offset) := by
  induction targets generalizing d with
  | nil => exact ⟨rfl, h⟩
  | cons t rest ih =>
      have hstep := set_default_stats_offset_var d t
      have := ih (set_default_stats d t)
        (by rw [hstep.2.2, hstep.2.1, hstep.1])
      simpa [List.foldl, hstep.1] using this

/-- C7: for a `StatObj` constructed with any initial parent target and any
sequence of `set_default_stats` calls afterwards, the offset never changes
from its construction-time value; the cached default pointer always equals
the current target's base plus that offset (NULL exactly when no target is
set), so default-target arithmetic resolves to `base + offset`; and the
explicit-arena `operator()` resolves to the supplied arena's base plus the
same offset. -/
theorem c7_offset_immutable_resolution (parentDefault : Option Nat)
    (off : Nat) (targets : List (Option Nat)) :
    (applyTargets parentDefault off targets).offset = off ∧
    (applyTargets parentDefault off targets).default_var =
      (applyTargets parentDefault off targets).default_stats.map
        (fun b => b + off) ∧
    (∀ base : Nat,
      statObjResolve (applyTargets parentDefault off targets) base = base + off) ∧
    (∀ base : Nat,
      (applyTargets parentDefault off targets).default_stats = some base →
      (applyTargets parentDefault off targets).default_var = some (base + off)) := by
  have hmk : (mkStatObj parentDefault off).offset = off ∧
      (mkStatObj parentDefault off).default_var =
        (mkStatObj parentDefault off).default_stats.map (fun b => b + off) := by
    cases parentDefault <;> simp [mkStatObj, set_default_var_ptr]
  have hinv := foldl_set_default_stats_inv targets (mkStatObj parentDefault off)
    (by rw [hmk.2, hmk.1])
  rw [hmk.1] at hinv
  refine ⟨hinv.1, hinv.2, ?_, ?_⟩
  · intro base
    simp [statObjResolve, applyTargets, hinv.1]
  · intro base hb
    rw [applyTargets] at hb ⊢
    rw [hinv.2, hb]
    rfl

theorem c7_offset_immutable_resolution_witness :
    (applyTargets (some 0) 16 [some 100, none, some 200]).offset = 16 ∧
    statObjResolve (applyTargets (some 0) 16 [some 100, none, some 200]) 500 = 516 ∧
    (applyTargets (some 0) 16 [some 100, none, some 200]).default_var = some 216 := by
  have h := c7_offset_immutable_resolution (some 0) 16 [some 100, none, some 200]
  refine ⟨h.1, by simpa using h.2.2.1 500, ?_⟩
  exact h.2.2.2 200 (by decide)

/-- C8: after switching a scalar descriptor's target from arena `X` (base
`bx`) to arena `Y` (base `bY`) with `set_default_stats`, every mutating
arithmetic operator (`++`/`--`, pre and post) writes through the new cached
pointer into `Y`, leaving `X`'s cell at the descriptor's offset unchanged;
and with the target set, the operators do not abort. -/
theorem c8_target_switch_isolation (off bx bY : Nat) (m : Mem)
    (hne : bx ≠ bY) :
    (∀ v : Int, ∀ m2 : Mem,
      (statObjIncPost (set_default_stats (mkStatObj (some bx) off) (some bY)) m
          = some (v, m2) ∨
       statObjIncPre (set_default_stats (mkStatObj (some bx) off) (some bY)) m
          = some (v, m2) ∨
       statObjDecPost (set_default_stats (mkStatObj (some bx) off) (some bY)) m
          = some (v, m2) ∨
       statObjDecPre (set_default_stats (mkStatObj (some bx) off) (some bY)) m
          = some (v, m2)) →
      m2 (bx + off) = m (bx + off)) ∧
    (statObjIncPost (set_default_stats (mkStatObj (some bx) off) (some bY)) m).isSome := by
  have hvar : (set_default_stats (mkStatObj (some bx) off) (some bY)).default_var
      = some (bY + off) := by
    simp [set_default_stats, mkStatObj, set_default_var_ptr]
  have haddr : bx + off ≠ bY + off := fun hcontra =>
    hne (Nat.add_right_cancel hcontra)
  constructor
  · intro v m2 hcase
    have hwrite : ∀ w : Int, memWrite m (bY + off) w (bx + off) = m (bx + off) := by
      intro w
      simp [memWrite, haddr]
    rcases hcase with h | h | h | h
    · simp [statObjIncPost, hvar] at h
      rw [← h.2]
      exact hwrite _
    · simp [statObjIncPre, hvar] at h
      rw [← h.2]
      exact hwrite _
    · simp [statObjDecPost, hvar] at h
      rw [← h.2]
      exact hwrite _
    · simp [statObjDecPre, hvar] at h
      rw [← h.2]
      exact hwrite _
  · rw [statObjIncPost, hvar]
    rfl

theorem c8_target_switch_isolation_witness :
    (statObjIncPost (set_default_stats (mkStatObj (some 0) 4) (some 10240)) zeroMem).isSome :=
  (c8_target_switch_isolation 4 0 10240 zeroMem (by decide)).2

theorem cursorAfter_eq_sum (c : Nat) (sizes : List Nat) :
    cursorAfter c sizes = c + sizes.sum := by
  induction sizes generalizing c with
  | nil => simp [cursorAfter]
  | cons s rest ih =>
      have h : cursorAfter c (s :: rest) = cursorAfter (c + s) rest := rfl
      rw [h, ih, List.sum_cons]
      omega

theorem sum_take_mono (sizes : List Nat) (k l : Nat) (hkl : k ≤ l) :
    (sizes.take k).sum ≤ (sizes.take l).sum := by
  have h1 : sizes.take k = (sizes.take l).take k := by
    rw [List.take_take, Nat.min_eq_left hkl]
  calc (sizes.take k).sum = ((sizes.take l).take k).sum := by rw [← h1]
    _ ≤ ((sizes.take l).take k).sum + ((sizes.take l).drop k).sum :=
        Nat.le_add_right _ _
    _ = (sizes.take l).sum := by rw [← List.sum_append, List.take_append_drop]

theorem sum_take_succ_getD (sizes : List Nat) (i : Nat) (hi : i < sizes.length) :
    (sizes.take (i + 1)).sum = (sizes.take i).sum + sizes.getD i 0 := by
  rw [List.take_succ, List.sum_append]
  have h2 : sizes[i]? = some sizes[i] := List.getElem?_eq_getElem hi
  rw [h2]
  simp [List.getD, h2]

theorem offset_range_le (c : Nat) (sizes : List Nat) (i j : Nat)
    (hij : i < j) (hi : i < sizes.length) :
    offsetOf c sizes i + sizes.getD i 0 ≤ offsetOf c sizes j := by
  rw [offsetOf, offsetOf, cursorAfter_eq_sum, cursorAfter_eq_sum]
  have h1 := sum_take_succ_getD sizes i hi
  have h2 := sum_take_mono sizes (i + 1) j hij
  omega

/-- C6: two distinct reservations from the same builder return byte ranges
`[offset, offset + size)` with no common address (each reservation returns
the cursor and advances it by the requested size), and over any two prefixes
of the reservation sequence the cursor never decreases. -/
theorem c6_offset_disjoint_cursor_monotone (c : Nat) (sizes : List Nat)
    (i j : Nat) (hij : i ≠ j) (hi : i < sizes.length) (hj : j < sizes.length) :
    (¬ ∃ x : Nat,
        (offsetOf c sizes i ≤ x ∧ x < offsetOf c sizes i + sizes.getD i 0) ∧
        (offsetOf c sizes j ≤ x ∧ x < offsetOf c sizes j + sizes.getD j 0)) ∧
    (∀ k l : Nat, k ≤ l →
        cursorAfter c (sizes.take k) ≤ cursorAfter c (sizes.take l)) := by
  constructor
  · rintro ⟨x, ⟨hxi1, hxi2⟩, hxj1, hxj2⟩
    rcases Nat.lt_or_ge i j with hlt | hge
    · have := offset_range_le c sizes i j hlt hi
      omega
    · have hjlt : j < i := lt_of_le_of_ne hge (Ne.symm hij)
      have := offset_range_le c sizes j i hjlt hj
      omega
  · intro k l hkl
    rw [cursorAfter_eq_sum, cursorAfter_eq_sum]
    have := sum_take_mono sizes k l hkl
    omega

theorem c6_offset_disjoint_cursor_monotone_witness :
    offsetOf 0 [8, 16] 0 = 0 ∧ offsetOf 0 [8, 16] 1 = 8 ∧
    ¬ ((offsetOf 0 [8, 16] 0 ≤ 5 ∧ 5 < offsetOf 0 [8, 16] 0 + [8, 16].getD 0 0) ∧
       (offsetOf 0 [8, 16] 1 ≤ 5 ∧ 5 < offsetOf 0 [8, 16] 1 + [8, 16].getD 1 0)) ∧
    cursorAfter 0 ([8, 16].take 1) ≤ cursorAfter 0 ([8, 16].take 2) :=
  ⟨rfl, rfl,
   fun hcontra =>
     (c6_offset_disjoint_cursor_monotone 0 [8, 16] 0 1 (by decide) (by decide)
       (by decide)).1 ⟨5, hcontra⟩,
   (c6_offset_disjoint_cursor_monotone 0 [8, 16] 0 1 (by decide) (by decide)
     (by decide)).2 1 2 (by decide)⟩

theorem memWrite_same (m : Mem) (a : Nat) (v : Int) : memWrite m a v a = v := by
  simp [memWrite]

theorem memWrite_other (m : Mem) (a x : Nat) (v : Int) (h : x ≠ a) :
    memWrite m a v x = m x := by
  simp [memWrite, h]

theorem block_cells_ne (bdst bsrc r1 r2 : Nat)
    (hblocks : bdst + STATS_SIZE ≤ bsrc ∨ bsrc + STATS_SIZE ≤ bdst)
    (h1 : r1 < STATS_SIZE) (h2 : r2 < STATS_SIZE) :
    bdst + r1 ≠ bsrc + r2 := by
  omega

theorem mul_succ_le (i c t : Nat) (hic : i < c) : i * t + t ≤ t * c := by
  calc i * t + t = (i + 1) * t := by ring
    _ ≤ c * t := mul_le_mul_right' hic t
    _ = t * c := Nat.mul_comm c t

theorem array_cell_lt (o t c i : Nat) (ht : 0 < t)
    (hwf : o + t * c ≤ STATS_SIZE) (hi : i < c) :
    o + i * t < STATS_SIZE := by
  have h1 := mul_succ_le i c t hi
  calc o + i * t < o + i * t + t := Nat.lt_add_of_pos_right ht
    _ = o + (i * t + t) := by ring
    _ ≤ o + t * c := Nat.add_le_add_left h1 o
    _ ≤ STATS_SIZE := hwf

theorem statArrayAddStatsLoop_succ (off tsize bdst bsrc k : Nat) (m : Mem) :
    statArrayAddStatsLoop off tsize bdst bsrc (k + 1) m =
      memWrite (statArrayAddStatsLoop off tsize bdst bsrc k m)
        (bdst + off + k * tsize)
        (statArrayAddStatsLoop off tsize bdst bsrc k m (bdst + off + k * tsize) +
         statArrayAddStatsLoop off tsize bdst bsrc k m (bsrc + off + k * tsize)) :=
  rfl

theorem statArrayAddStatsLoop_frame (off tsize bdst bsrc : Nat) :
    ∀ n : Nat, ∀ m : Mem, ∀ x : Nat,
      (∀ i, i < n → x ≠ bdst + off + i * tsize) →
      statArrayAddStatsLoop off tsize bdst bsrc n m x = m x := by
  intro n
  induction n with
  | zero => intro m x _; rfl
  | succ k ih =>
      intro m x hx
      rw [statArrayAddStatsLoop_succ,
        memWrite_other _ _ _ _ (hx k (Nat.lt_succ_self k))]
      exact ih m x (fun i hik => hx i (Nat.lt_succ_of_lt hik))

theorem statArrayAddStatsLoop_dst (off tsize bdst bsrc : Nat) (ht : 0 < tsize) :
    ∀ n : Nat, ∀ m : Mem,
      (∀ i j : Nat, i < n → j < n →
        bsrc + off + i * tsize ≠ bdst + off + j * tsize) →
      ∀ j, j < n →
        statArrayAddStatsLoop off tsize bdst bsrc n m (bdst + off + j * tsize) =
          m (bdst + off + j * tsize) + m (bsrc + off + j * tsize) := by
  have hdstne : ∀ i1 i2 : Nat, i1 ≠ i2 →
      bdst + off + i1 * tsize ≠ bdst + off + i2 * tsize := by
    intro i1 i2 hne heq
    have hmul : i1 * tsize = i2 * tsize := Nat.add_left_cancel heq
    exact hne (Nat.eq_of_mul_eq_mul_right ht hmul)
  intro n
  induction n with
  | zero => intro m _ j hj; exact absurd hj (Nat.not_lt_zero j)
  | succ k ih =>
      intro m hsep j hj
      rcases Nat.lt_succ_iff_lt_or_eq.mp hj with hjk | rfl
      · rw [statArrayAddStatsLoop_succ,
          memWrite_other _ _ _ _ (hdstne j k (Nat.ne_of_lt hjk))]
        exact ih m
          (fun i1 i2 h1 h2 => hsep i1 i2 (Nat.lt_succ_of_lt h1) (Nat.lt_succ_of_lt h2))
          j hjk
      · rw [statArrayAddStatsLoop_succ, memWrite_same]
        have hfr1 : statArrayAddStatsLoop off tsize bdst bsrc j m
            (bdst + off + j * tsize) = m (bdst + off + j * tsize) :=
          statArrayAddStatsLoop_frame off tsize bdst bsrc j m _
            (fun i hik => hdstne j i (Nat.ne_of_gt hik))
        have hfr2 : statArrayAddStatsLoop off tsize bdst bsrc j m
            (bsrc + off + j * tsize) = m (bsrc + off + j * tsize) :=
          statArrayAddStatsLoop_frame off tsize bdst bsrc j m _
            (fun i hik => hsep j i (Nat.lt_succ_self j) (Nat.lt_succ_of_lt hik))
        rw [hfr1, hfr2]

theorem writesAt_range (l : Leaf) (bdst x : Nat) (ht : 0 < l.tsize)
    (hx : l.writesAt bdst x) :
    bdst + l.offset ≤ x ∧ x < bdst + l.offset + l.bytes := by
  cases l with
  | scalar o t =>
      simp only [Leaf.writesAt] at hx
      subst hx
      simp only [Leaf.offset, Leaf.bytes]
      simp only [Leaf.tsize] at ht
      omega
  | array o t c =>
      obtain ⟨i, hic, rfl⟩ := hx
      simp only [Leaf.offset, Leaf.bytes]
      simp only [Leaf.tsize] at ht
      have h1 := mul_succ_le i c t hic
      constructor
      · exact Nat.le_add_right _ _
      · calc bdst + o + i * t < bdst + o + i * t + t := Nat.lt_add_of_pos_right ht
          _ = bdst + o + (i * t + t) := by ring
          _ ≤ bdst + o + t * c := Nat.add_le_add_left h1 _

theorem leafDisjoint_symm (l1 l2 : Leaf) (h : l1.disjoint l2) : l2.disjoint l1 := by
  rw [Leaf.disjoint] at h ⊢
  exact h.symm

theorem writesAt_of_disjoint (l l2 : Leaf) (bdst x : Nat)
    (ht : 0 < l.tsize) (ht2 : 0 < l2.tsize)
    (hd : l.disjoint l2) (h1 : l.writesAt bdst x) : ¬ l2.writesAt bdst x := by
  intro h2
  have r1 := writesAt_range l bdst x ht h1
  have r2 := writesAt_range l2 bdst x ht2 h2
  rw [Leaf.disjoint] at hd
  rcases hd with h | h <;> omega

theorem leafAddStats_frame (l : Leaf) (bdst bsrc : Nat) (m : Mem) (x : Nat)
    (hx : ¬ l.writesAt bdst x) :
    l.addStats bdst bsrc m x = m x := by
  cases l with
  | scalar o t =>
      simp only [Leaf.addStats, statObjAddStats]
      exact memWrite_other _ _ _ _ (by simpa [Leaf.writesAt] using hx)
  | array o t c =>
      simp only [Leaf.addStats]
      refine statArrayAddStatsLoop_frame o t bdst bsrc c m x ?_
      intro i hic heq
      exact hx ⟨i, hic, heq⟩

theorem leafAddStats_spec (l : Leaf) (bdst bsrc : Nat) (m : Mem)
    (hwf : l.wf)
    (hblocks : bdst + STATS_SIZE ≤ bsrc ∨ bsrc + STATS_SIZE ≤ bdst) :
    leafMergeSpec m (l.addStats bdst bsrc m) bdst bsrc l := by
  rw [Leaf.wf] at hwf
  cases l with
  | scalar o t =>
      simp only [Leaf.tsize, Leaf.offset, Leaf.bytes] at hwf
      have ho : o < STATS_SIZE := by omega
      constructor
      · exact memWrite_same _ _ _
      · simp only [Leaf.addStats, statObjAddStats]
        exact memWrite_other _ _ _ _
          (block_cells_ne bsrc bdst o o hblocks.symm ho ho)
  | array o t c =>
      simp only [Leaf.tsize, Leaf.offset, Leaf.bytes] at hwf
      obtain ⟨ht, hsz⟩ := hwf
      have hcell : ∀ i2, i2 < c → o + i2 * t < STATS_SIZE :=
        fun i2 h2 => array_cell_lt o t c i2 ht hsz h2
      have hsep : ∀ i1 j1 : Nat, i1 < c → j1 < c →
          bsrc + o + i1 * t ≠ bdst + o + j1 * t := by
        intro i1 j1 h1 h2
        have := block_cells_ne bsrc bdst (o + i1 * t) (o + j1 * t)
          hblocks.symm (hcell i1 h1) (hcell j1 h2)
        simpa [Nat.add_assoc] using this
      intro i hi
      constructor
      · exact statArrayAddStatsLoop_dst o t bdst bsrc ht c m hsep i hi
      · exact statArrayAddStatsLoop_frame o t bdst bsrc c m _
          (fun i2 h2 => hsep i i2 hi h2)

theorem leafMergeSpec_congr_left (l : Leaf) (m m2 m3 : Mem) (bdst bsrc : Nat)
    (h : ∀ x, l.writesAt bdst x ∨ l.writesAt bsrc x → m2 x = m x)
    (hspec : leafMergeSpec m2 m3 bdst bsrc l) :
    leafMergeSpec m m3 bdst bsrc l := by
  cases l with
  | scalar o t =>
      obtain ⟨h1, h2⟩ := hspec
      exact ⟨by rw [h1, h _ (Or.inl rfl), h _ (Or.inr rfl)],
             by rw [h2, h _ (Or.inr rfl)]⟩
  | array o t c =>
      intro i hi
      obtain ⟨h1, h2⟩ := hspec i hi
      exact ⟨by rw [h1, h _ (Or.inl ⟨i, hi, rfl⟩), h _ (Or.inr ⟨i, hi, rfl⟩)],
             by rw [h2, h _ (Or.inr ⟨i, hi, rfl⟩)]⟩

theorem leafMergeSpec_congr_right (l : Leaf) (m m2 m3 : Mem) (bdst bsrc : Nat)
    (h : ∀ x, l.writesAt bdst x ∨ l.writesAt bsrc x → m3 x = m2 x)
    (hspec : leafMergeSpec m m2 bdst bsrc l) :
    leafMergeSpec m m3 bdst bsrc l := by
  cases l with
  | scalar o t =>
      obtain ⟨h1, h2⟩ := hspec
      exact ⟨by rw [h _ (Or.inl rfl), h1],
             by rw [h _ (Or.inr rfl), h2]⟩
  | array o t c =>
      intro i hi
      obtain ⟨h1, h2⟩ := hspec i hi
      exact ⟨by rw [h _ (Or.inl ⟨i, hi, rfl⟩), h1],
             by rw [h _ (Or.inr ⟨i, hi, rfl⟩), h2]⟩

theorem mergeAll_cons (l : Leaf) (L : List Leaf) (bdst bsrc : Nat) (m : Mem) :
    mergeAll (l :: L) bdst bsrc m = mergeAll L bdst bsrc (l.addStats bdst bsrc m) :=
  rfl

theorem mergeAll_frame (bdst bsrc : Nat) :
    ∀ leaves : List Leaf, ∀ m : Mem, ∀ x : Nat,
      (∀ l ∈ leaves, ¬ l.writesAt bdst x) →
      mergeAll leaves bdst bsrc m x = m x := by
  intro leaves
  induction leaves with
  | nil => intro m x _; rfl
  | cons l L ih =>
      intro m x hx
      rw [mergeAll_cons,
        ih _ _ (fun l2 h2 => hx l2 (List.mem_cons_of_mem _ h2)),
        leafAddStats_frame l bdst bsrc m x (hx l (List.mem_cons_self _ _))]

/-- C5: merging arena `Y` (base `bsrc`) into arena `X` (base `bdst`) via the
tree-driven `add_stats` over the registered leaves: for every leaf, each of
its scalar cells / array elements in `X` afterwards equals its prior `X`
value plus its `Y` value, and each of its cells in `Y` is unchanged. The
hypotheses are exactly what the builder and allocator guarantee: every leaf
has positive element size and fits under `STATS_SIZE`, leaf byte ranges are
pairwise disjoint (C6), and the two arenas' blocks are disjoint. -/
theorem c5_merge_correct :
    ∀ (leaves : List Leaf) (bdst bsrc : Nat) (m : Mem),
      (∀ l ∈ leaves, l.wf) →
      leaves.Pairwise Leaf.disjoint →
      (bdst + STATS_SIZE ≤ bsrc ∨ bsrc + STATS_SIZE ≤ bdst) →
      ∀ l ∈ leaves, leafMergeSpec m (mergeAll leaves bdst bsrc m) bdst bsrc l := by
  intro leaves
  induction leaves with
  | nil =>
      intro bdst bsrc m _ _ _ l hl
      exact absurd hl (List.not_mem_nil l)
  | cons l0 L ih =>
      intro bdst bsrc m hwf hdisj hblocks l hl
      rw [List.pairwise_cons] at hdisj
      obtain ⟨hd0, hdL⟩ := hdisj
      have hwf0 : l0.wf := hwf l0 (List.mem_cons_self _ _)
      have ht0 : 0 < l0.tsize := by
        rw [Leaf.wf] at hwf0
        exact hwf0.1
      have hwfL : ∀ l2 ∈ L, l2.wf := fun l2 h2 => hwf l2 (List.mem_cons_of_mem _ h2)
      have htL : ∀ l2 ∈ L, 0 < l2.tsize := by
        intro l2 h2
        have := hwfL l2 h2
        rw [Leaf.wf] at this
        exact this.1
      have hsrc_not_dst : ∀ (la lb : Leaf), la.wf → lb.wf →
          ∀ x, la.writesAt bsrc x → ¬ lb.writesAt bdst x := by
        intro la lb hwa hwb x hxs hw
        rw [Leaf.wf] at hwa hwb
        have rs := writesAt_range la bsrc x hwa.1 hxs
        have rx := writesAt_range lb bdst x hwb.1 hw
        have hba := hwa.2
        have hbb := hwb.2
        omega
      rw [mergeAll_cons]
      rcases List.mem_cons.mp hl with rfl | hlL
      · have hspec0 : leafMergeSpec m (l.addStats bdst bsrc m) bdst bsrc l :=
          leafAddStats_spec l bdst bsrc m hwf0 hblocks
        refine leafMergeSpec_congr_right l m _ _ bdst bsrc ?_ hspec0
        intro x hx
        apply mergeAll_frame
        intro l2 hl2
        rcases hx with hxd | hxs
        · exact writesAt_of_disjoint l l2 bdst x ht0 (htL l2 hl2) (hd0 l2 hl2) hxd
        · exact hsrc_not_dst l l2 hwf0 (hwfL l2 hl2) x hxs
      · have hagree : ∀ x, l.writesAt bdst x ∨ l.writesAt bsrc x →
            (l0.addStats bdst bsrc m) x = m x := by
          intro x hx
          apply leafAddStats_frame
          rcases hx with hxd | hxs
          · exact writesAt_of_disjoint l l0 bdst x (htL l hlL) ht0
              (leafDisjoint_symm l0 l (hd0 l hlL)) hxd
          · exact hsrc_not_dst l l0 (hwfL l hlL) hwf0 x hxs
        exact leafMergeSpec_congr_left l m (l0.addStats bdst bsrc m) _ bdst bsrc
          hagree (ih bdst bsrc (l0.addStats bdst bsrc m) hwfL hdL hblocks l hlL)

theorem c5_merge_correct_witness :
    leafMergeSpec ((fun _ => 1) : Mem)
      (mergeAll [Leaf.scalar 0 8, Leaf.array 8 8 2] 0 10240 ((fun _ => 1) : Mem))
      0 10240 (Leaf.scalar 0 8) :=
  c5_merge_correct [Leaf.scalar 0 8, Leaf.array 8 8 2] 0 10240 ((fun _ => 1) : Mem)
    (by decide) (by decide) (by decide) (Leaf.scalar 0 8) (by decide)
